import Mathlib

/-!
Verification of the map-json library (src/json-mapper.js and src/transform-util.js).

The development shallowly embeds the JavaScript source in Lean:

* JavaScript values that can appear in a template / source tree are modelled by
  the inductive type `Json`; the JavaScript value `undefined` is a first-class
  member (`Json.undef`), since the library threads it through as its "absent"
  marker (lodash `_.isUndefined` checks).
* JavaScript objects are association lists in insertion order; JS key-enumeration
  order for the plain (non-integer-keyed) objects used by mapping templates is
  insertion order, which is what `Object.keys` returns for them.
* User-supplied transform/condition functions are modelled as Lean functions
  returning `Except String Json`; a thrown JS exception is `Except.error`.
* Code paths where the JavaScript engine itself raises a `TypeError` (property
  access on `undefined`/`null`, calling a method of `undefined`) are modelled
  with `Except.error` as well.
* Logging (`console.warn`) is elided; aside from the `Object.keys` call that
  computes the logged name in `checkCondition` (kept, because it can throw) the
  log statements have no observable effect.
-/

inductive Json where
  | undef : Json
  | null : Json
  | bool (b : Bool) : Json
  | num (n : Int) : Json
  | str (s : String) : Json
  | arr (items : List Json) : Json
  | obj (fields : List (String × Json)) : Json
deriving Inhabited

namespace Json

mutual

def eqJson : Json → Json → Bool
  | .undef, .undef => true
  | .null, .null => true
  | .bool a, .bool b => a == b
  | .num a, .num b => a == b
  | .str a, .str b => a == b
  | .arr a, .arr b => eqItems a b
  | .obj a, .obj b => eqPairs a b
  | _, _ => false

def eqItems : List Json → List Json → Bool
  | [], [] => true
  | [], _ :: _ => false
  | _ :: _, [] => false
  | x :: xs, y :: ys => if eqJson x y then eqItems xs ys else false

def eqPairs : List (String × Json) → List (String × Json) → Bool
  | [], [] => true
  | [], _ :: _ => false
  | _ :: _, [] => false
  | kv :: xs, kw :: ys =>
    if kv.1 == kw.1 then (if eqJson kv.2 kw.2 then eqPairs xs ys else false) else false

end

instance : BEq Json := ⟨eqJson⟩

/-- Custom induction principle for the nested inductive `Json`. -/
def inductionOn {P : Json → Prop}
    (hundef : P .undef) (hnull : P .null)
    (hbool : ∀ b, P (.bool b)) (hnum : ∀ n, P (.num n)) (hstr : ∀ s, P (.str s))
    (harr : ∀ xs, (∀ x ∈ xs, P x) → P (.arr xs))
    (hobj : ∀ fs, (∀ kv ∈ fs, P kv.2) → P (.obj fs)) :
    ∀ v, P v
  | .undef => hundef
  | .null => hnull
  | .bool b => hbool b
  | .num n => hnum n
  | .str s => hstr s
  | .arr xs => harr xs (fun x hx =>
      have : sizeOf x < 1 + sizeOf xs := by
        have := List.sizeOf_lt_of_mem hx
        omega
      inductionOn hundef hnull hbool hnum hstr harr hobj x)
  | .obj fs => hobj fs (fun kv hkv =>
      have : sizeOf kv.2 < 1 + sizeOf fs := by
        have h1 := List.sizeOf_lt_of_mem hkv
        have h2 : sizeOf kv.2 < sizeOf kv := by
          obtain ⟨a, b⟩ := kv
          simp
        omega
      inductionOn hundef hnull hbool hnum hstr harr hobj kv.2)
termination_by v => sizeOf v

theorem eqJson_iff_eq : ∀ a b : Json, eqJson a b = true ↔ a = b := by
  have listAux : ∀ (xs : List Json), (∀ x ∈ xs, ∀ b, eqJson x b = true ↔ x = b) →
      ∀ ys, eqItems xs ys = true ↔ xs = ys := by
    intro xs
    induction xs with
    | nil => intro _ ys; cases ys <;> simp [eqItems]
    | cons x xs ih =>
      intro h ys
      cases ys with
      | nil => simp [eqItems]
      | cons y ys =>
        have hx := h x (by simp)
        have hrest := ih (fun z hz => h z (by simp [hz]))
        simp [eqItems, hx, hrest]
  have fieldsAux : ∀ (fs : List (String × Json)),
      (∀ kv ∈ fs, ∀ b, eqJson kv.2 b = true ↔ kv.2 = b) →
      ∀ gs, eqPairs fs gs = true ↔ fs = gs := by
    intro fs
    induction fs with
    | nil => intro _ gs; cases gs <;> simp [eqPairs]
    | cons kv fs ih =>
      intro h gs
      obtain ⟨k, v⟩ := kv
      cases gs with
      | nil => simp [eqPairs]
      | cons kw gs =>
        obtain ⟨k₂, v₂⟩ := kw
        have hv := h (k, v) (by simp)
        have hrest := ih (fun z hz => h z (by simp [hz]))
        simp [eqPairs, hv, hrest, and_assoc]
  intro a
  induction a using inductionOn with
  | hundef => intro b; cases b <;> simp [eqJson]
  | hnull => intro b; cases b <;> simp [eqJson]
  | hbool x => intro b; cases b <;> simp [eqJson]
  | hnum x => intro b; cases b <;> simp [eqJson]
  | hstr x => intro b; cases b <;> simp [eqJson]
  | harr xs ih =>
    intro b
    cases b <;> simp [eqJson]
    exact listAux xs ih _
  | hobj fs ih =>
    intro b
    cases b <;> simp [eqJson]
    exact fieldsAux fs ih _

instance : DecidableEq Json := fun a b =>
  decidable_of_iff (eqJson a b = true) (eqJson_iff_eq a b)

instance : LawfulBEq Json where
  eq_of_beq h := (eqJson_iff_eq _ _).1 h
  rfl := (eqJson_iff_eq _ _).2 rfl

end Json

deriving instance DecidableEq for Except

/-! JavaScript semantic helpers (lodash predicates, truthiness, property access). -/

/-- Lodash `_.isUndefined`. -/
def isUndefinedJ : Json → Bool
  | .undef => true
  | _ => false

/-- Lodash `_.isObject`: true for objects and arrays (JS functions are out of the
model), false for `null`, `undefined` and primitives. -/
def jsIsObject : Json → Bool
  | .obj _ => true
  | .arr _ => true
  | _ => false

/-- Lodash `_.isString`. -/
def jsIsString : Json → Bool
  | .str _ => true
  | _ => false

/-- Lodash `_.isArray`. -/
def jsIsArray : Json → Bool
  | .arr _ => true
  | _ => false

/-- Lodash `_.isBoolean`. -/
def jsIsBoolean : Json → Bool
  | .bool _ => true
  | _ => false

/-- JavaScript truthiness: `undefined`, `null`, `false`, `0` and the empty string
are falsy; every object and array (even empty ones) is truthy. (`NaN` is outside
the integer number model.) -/
def isTruthy : Json → Bool
  | .undef => false
  | .null => false
  | .bool b => b
  | .num n => !(n == 0)
  | .str s => !(s == "")
  | .arr _ => true
  | .obj _ => true

/-- JavaScript `a || b`: `a` if truthy, else `b`. -/
def jsOr (a b : Json) : Json := if isTruthy a then a else b

/-- JavaScript `!x` on a boolean result. -/
def jsNegate : Json → Json
  | .bool b => .bool (!b)
  | v => v

/-- Parses a canonical array-index string (the decimal representation with no
leading zeros, as JavaScript array indexing requires). -/
def parseIndex (s : String) : Option Nat :=
  match s.data with
  | [] => none
  | ['0'] => some 0
  | c :: cs => if c == '0' then none else go (c :: cs) 0
where
  go : List Char → Nat → Option Nat
    | [], acc => some acc
    | c :: cs, acc =>
      if c.isDigit then go cs (acc * 10 + (c.toNat - 48)) else none

/-- JavaScript property read `v[k]` for receivers that are not `null`/`undefined`:
object field lookup, array indexing by a canonical numeric string, string
indexing; every other read yields `undefined`. (Exotic built-in own properties
such as `length` are outside the model; the mapping templates never use them.) -/
def jsIndex : Json → String → Json
  | .obj fs, k => (List.lookup k fs).getD .undef
  | .arr xs, k =>
    match parseIndex k with
    | some i => xs.getD i .undef
    | none => .undef
  | .str s, k =>
    match parseIndex k with
    | some i =>
      match s.data.get? i with
      | some c => .str (String.mk [c])
      | none => .undef
    | none => .undef
  | _, _ => (Json.undef)

/-- JavaScript property read `v[k]` in general position: reading a property of
`undefined` or `null` throws a `TypeError`. -/
def jsIndexE : Json → String → Except String Json
  | .undef, _ => .error "TypeError: Cannot read property of undefined"
  | .null, _ => .error "TypeError: Cannot read property of null"
  | v, k => .ok (jsIndex v k)

/-- JavaScript `Object.keys`: throws a `TypeError` on `undefined`/`null`; field
names for objects, index strings for arrays and strings, empty for other
primitives. -/
def jsKeysE : Json → Except String (List String)
  | .undef => .error "TypeError: Cannot convert undefined to object"
  | .null => .error "TypeError: Cannot convert null to object"
  | .obj fs => .ok (fs.map (fun kv => kv.1))
  | .arr xs => .ok ((List.range xs.length).map toString)
  | .str s => .ok ((List.range s.length).map toString)
  | _ => .ok []

/-- Field access `v.k` on values the code has already established to be plain
objects; `undefined` for a missing key or a non-object receiver. -/
def jsField (v : Json) (k : String) : Json := jsIndex v k

/-- JavaScript `[].concat(x)`: spreads an array argument, wraps anything else
(including `undefined`) as a one-element array. -/
def jsConcatList : Json → List Json
  | .arr xs => xs
  | v => [v]

/-- Children of a node in tree-walk order, as enumerated by `for (var k in v)`:
array elements in index order, object field values in key-enumeration order. -/
def jsChildren : Json → List Json
  | .obj fs => fs.map (fun kv => kv.2)
  | .arr xs => xs
  | _ => []

/-! Key-path splitting. A key-path is a dot-separated string; the JavaScript
side calls `path.split('.')`, modelled character-exactly by `splitOnChar`. -/

/-- JavaScript `String.prototype.split` with a single-character separator:
`"a.b".split('.') = ["a","b"]`, `"".split('.') = [""]`, `".".split('.') = ["",""]`. -/
def splitOnChar (sep : Char) : List Char → List (List Char)
  | [] => [[]]
  | c :: cs =>
    if c == sep then [] :: splitOnChar sep cs
    else
      match splitOnChar sep cs with
      | [] => [[c]]
      | g :: gs => (c :: g) :: gs

/-- Splits a key-path string on dots into its segments. -/
def splitPath (s : String) : List String :=
  (splitOnChar '.' s.data).map (fun cs => String.mk cs)

/-- Every character of a segment produced by `splitOnChar` occurs in the input. -/
theorem splitOnChar_chars_subset (sep : Char) :
    ∀ (cs : List Char) (g : List Char), g ∈ splitOnChar sep cs → ∀ c ∈ g, c ∈ cs := by
  intro cs
  induction cs with
  | nil =>
    intro g hg c hc
    simp [splitOnChar] at hg
    subst hg
    simp at hc
  | cons x xs ih =>
    intro g hg c hc
    by_cases hx : (x == sep) = true
    · simp [splitOnChar, hx] at hg
      rcases hg with hg | hg
      · subst hg; simp at hc
      · exact List.mem_cons_of_mem _ (ih g hg c hc)
    · simp only [splitOnChar, hx, Bool.false_eq_true, if_false] at hg
      rcases hrec : splitOnChar sep xs with - | ⟨g₀, gs⟩
      · rw [hrec] at hg
        simp at hg
        subst hg
        simp at hc
        simp [hc]
      · rw [hrec] at hg
        simp at hg
        rcases hg with hg | hg
        · subst hg
          simp at hc
          rcases hc with hc | hc
          · simp [hc]
          · exact List.mem_cons_of_mem _ (ih g₀ (by simp [hrec]) c hc)
        · exact List.mem_cons_of_mem _ (ih g (by simp [hrec, hg]) c hc)

/-- A key-path with a wildcard segment contains the character `*`. -/
theorem contains_star_of_star_segment (s : String) (h : "*" ∈ splitPath s) :
    s.data.contains '*' = true := by
  simp only [splitPath, List.mem_map] at h
  obtain ⟨g, hg, hmk⟩ := h
  have : g = ['*'] := by
    have := congrArg String.data hmk
    simpa using this
  subst this
  have := splitOnChar_chars_subset '.' s.data ['*'] hg '*' (by simp)
  simpa [List.contains_iff_exists_mem_beq] using this

/-! Path resolution. The repository resolves key-paths with the external npm
library dotty (`dotty.get`, `dotty.search`), whose source is not part of this
repository; the two functions below are modelled from the spec (section 4.1). -/

/-- Modelled from the spec: `dotty.get` — no-wildcard direct nested lookup,
walking one segment at a time; the result is absent when an intermediate
segment is missing or the value at it is not indexable. -/
def dottyGet : Json → List String → Json
  | _, [] => .undef
  | v, [k] => if jsIsObject v then jsIndex v k else .undef
  | v, k :: rest => if jsIsObject v then dottyGet (jsIndex v k) rest else (Json.undef)

/-- Modelled from the spec: `dotty.search` — multi-branch search that expands
every `*` segment against all children at that level (in tree-walk order) and
collects the values found at the full path depth. A branch that dies at an
intermediate segment contributes nothing; a named final segment that is missing
contributes `undefined` (the caller filters those out). -/
def dottySearch : Json → List String → List Json
  | _, [] => []
  | v, [k] =>
    if jsIsObject v then
      if k == "*" then jsChildren v else [jsIndex v k]
    else []
  | v, k :: rest =>
    if jsIsObject v then
      if k == "*" then (jsChildren v).flatMap (fun c => dottySearch c rest)
      else dottySearch (jsIndex v k) rest
    else []
termination_by structural _ p => p

/-- Embeds `JsonMapper._resolveKeyPath`: wildcard search (when the path string
contains a `*` character) with absent results filtered out and the 0/1/many
dispatch, or a plain `dotty.get`. -/
def resolveKeyPath (src : Json) (keyPath : String) : Json :=
  if keyPath.data.contains '*' then
    match (dottySearch src (splitPath keyPath)).filter (fun r => !isUndefinedJ r) with
    | [] => .undef
    | [v] => v
    | vs => .arr vs
  else dottyGet src (splitPath keyPath)

/-- Resolves each key-path of a multi-source list left to right; a non-string
element makes `keyPath.indexOf` throw a `TypeError`. (An array-valued element —
a dotty array path — is outside the modelled template language and is mapped to
the same error.) -/
def resolvePathList (src : Json) : List Json → Except String (List Json)
  | [] => .ok []
  | .str s :: rest =>
    match resolvePathList src rest with
    | .error e => .error e
    | .ok vs => .ok (resolveKeyPath src s :: vs)
  | _ :: _ => .error "TypeError: keyPath.indexOf is not a function"

/-- Embeds `JsonMapper._resolveSource`: a list of key-paths is resolved
element-wise keeping absent slots in place (collapsing to absent only when every
slot is absent); a single key-path is resolved directly. -/
def resolveSource (src : Json) (sourceKeyPath : Json) : Except String Json :=
  match sourceKeyPath with
  | .arr paths =>
    match resolvePathList src paths with
    | .error e => .error e
    | .ok sourceValues =>
      .ok (if sourceValues.all isUndefinedJ then .undef else .arr sourceValues)
  | .str s => .ok (resolveKeyPath src s)
  | _ => .error "TypeError: keyPath.indexOf is not a function"

/-! TransformUtil (src/transform-util.js): the function-call protocol. -/

/-- Table of user-supplied transform/condition functions (the
`transformSource` constructor argument): name to callable. A callable receives
its JS argument list and either returns a value or throws. -/
def TransformSource := List (String × (List Json → Except String Json))

/-- Result of `TransformUtil._checkFunctionPrefix`: the two modifier flags and
the function name with the modifier characters stripped. -/
structure FnMods where
  isAt : Bool
  isInversed : Bool
  strippedName : String
deriving Repr

/-- JavaScript `String.prototype.replace` with a single-character pattern and an
empty replacement: removes the first occurrence of the character. -/
def removeFirstChar (s : String) (c : Char) : String :=
  .mk (go s.data)
where
  go : List Char → List Char
    | [] => []
    | x :: xs => if x == c then xs else x :: go xs

/-- JavaScript regular-expression test `/^(p)/` for the literal one- or
two-character alternatives used by the source: does the string start with the
given characters. -/
def startsWithChars (s : String) : List Char → Bool
  | pre => List.isPrefixOf pre s.data

/-- Embeds `TransformUtil._checkFunctionPrefix` (the `strippedName` field is the
source's `functionNameWithoutPrefix`; that JS identifier is renamed here): an
at-sign activates `isAt` when the name matches `/^(@|!@)/` and the first `@` is
removed; a bang activates `isInversed` when the name matches `/^(!|@!)/` and the
first `!` is then removed. -/
def checkFunctionModifier (functionName : String) : FnMods :=
  let isAt := startsWithChars functionName ['@'] || startsWithChars functionName ['!', '@']
  let n₁ := if isAt then removeFirstChar functionName '@' else functionName
  let isInversed := startsWithChars functionName ['!'] || startsWithChars functionName ['@', '!']
  let n₂ := if isInversed then removeFirstChar n₁ '!' else n₁
  { isAt := isAt, isInversed := isInversed, strippedName := n₂ }

/-- Embeds `TransformUtil._runFunction`: takes the first enumerated key of the
call object as the (possibly modifier-decorated) function name, its value as
the declared argument list, prepends the input value unless `@` is active,
looks the stripped name up in the function table (an unknown name is the JS
"is not a function" `TypeError`), applies the callable, and negates a boolean
result when `!` is active (a non-boolean result passes through unchanged). -/
def runFunction (tbl : TransformSource) (functionObject inputValue : Json) :
    Except String Json :=
  match jsKeysE functionObject with
  | .error e => .error e
  | .ok [] => .error "TypeError: this.transformSource[functionName] is not a function"
  | .ok (functionName :: _) =>
    let parameters := jsIndex functionObject functionName
    let mods := checkFunctionModifier functionName
    match List.lookup mods.strippedName tbl with
    | none => .error "TypeError: this.transformSource[functionName] is not a function"
    | some f =>
      let allParameters := inputValue :: jsConcatList parameters
      match f (if mods.isAt then allParameters.drop 1 else allParameters) with
      | .error e => .error e
      | .ok transformedValue =>
        .ok (if mods.isInversed && jsIsBoolean transformedValue
             then jsNegate transformedValue else transformedValue)

/-- JavaScript `x === true`. -/
def isTrueJ : Json → Bool
  | .bool true => true
  | _ => false

/-- The `.map` body of `TransformUtil.checkCondition`, over the concat-wrapped
condition list: for each call object the logged name is computed by
`Object.keys` outside the `try` (so it can throw), then the call runs inside
the `try` with a thrown call mapped to `false`; each entry records whether the
raw result is `=== true`. -/
def condResults (tbl : TransformSource) (sources : Json) :
    List Json → Except String (List Bool)
  | [] => .ok []
  | c :: cs =>
    match jsKeysE c with
    | .error e => .error e
    | .ok _ =>
      let r := match runFunction tbl c sources with
        | .ok v => isTrueJ v
        | .error _ => false
      match condResults tbl sources cs with
      | .error e => .error e
      | .ok rs => .ok (r :: rs)

/-- Embeds `TransformUtil.checkCondition`: all condition calls must succeed and
yield exactly `true`. -/
def checkCondition (tbl : TransformSource) (sources conditionFunctionObjects : Json) :
    Except String Bool :=
  match condResults tbl sources (jsConcatList conditionFunctionObjects) with
  | .error e => .error e
  | .ok rs => .ok (rs.all (fun b => b))

/-- The `forEach` loop of `TransformUtil.transformValue`: each call consumes the
previous result; the first thrown call aborts the loop and the outer catch turns
the whole chain result into `undefined`. -/
def transformChain (tbl : TransformSource) : Json → List Json → Json
  | v, [] => v
  | v, c :: cs =>
    match runFunction tbl c v with
    | .ok w => transformChain tbl w cs
    | .error _ => Json.undef

/-- Embeds `TransformUtil.transformValue`: runs the concat-wrapped chain; any
error yields `undefined` for the entire chain. -/
def transformValue (tbl : TransformSource) (value transformFunctionObjects : Json) : Json :=
  transformChain tbl value (jsConcatList transformFunctionObjects)

/-- Success-tracking variant of the transform chain, used only to state
theorems: `.ok` is a chain where every call succeeded, `.error` the first
thrown error. -/
def chainSteps (tbl : TransformSource) : Json → List Json → Except String Json
  | v, [] => .ok v
  | v, c :: cs =>
    match runFunction tbl c v with
    | .ok w => chainSteps tbl w cs
    | .error e => .error e

/-- The `filter` predicate pass of `resolveTransformConditions`: pairs each
element with whether its `_condition` property is defined; the property read
throws on `null`/`undefined` elements. -/
def markConditionals : List Json → Except String (List (Json × Bool))
  | [] => .ok []
  | x :: xs =>
    match jsIndexE x "_condition" with
    | .error e => .error e
    | .ok c =>
      match markConditionals xs with
      | .error e => .error e
      | .ok rest => .ok ((x, !isUndefinedJ c) :: rest)

/-- The `map` over conditional transform groups in `resolveTransformConditions`:
every group's condition is checked (against the original sources), a met group
contributes its `_transform` value and an unmet one `undefined`. -/
def groupResults (tbl : TransformSource) (sources : Json) :
    List Json → Except String (List Json)
  | [] => .ok []
  | g :: gs =>
    match checkCondition tbl sources (jsField g "_condition") with
    | .error e => .error e
    | .ok met =>
      match groupResults tbl sources gs with
      | .error e => .error e
      | .ok rest => .ok ((if met then jsField g "_transform" else Json.undef) :: rest)

/-- Embeds `TransformUtil.resolveTransformConditions`: splits the concat-wrapped
specification into condition-bearing groups and plain transforms (lodash
`_.difference` against the original argument, which yields the empty list when
that argument is not an array), rejects a mix of the two, returns a plain
specification unchanged (as the wrapped array), and otherwise picks the first
met group's `_transform` — `undefined` when no group's condition is met.
This function lives in the current transform-util module but is not invoked by
the current json-mapper. -/
def resolveTransformConditions (tbl : TransformSource)
    (sources transformFunctionObject : Json) : Except String Json :=
  let transformFunctionObjects := jsConcatList (jsOr transformFunctionObject (.arr []))
  match markConditionals transformFunctionObjects with
  | .error e => .error e
  | .ok marked =>
    let conditionalTransforms :=
      (marked.filter (fun (p : Json × Bool) => p.2)).map (fun (p : Json × Bool) => p.1)
    let normalTransforms :=
      match transformFunctionObject with
      | .arr _ => (marked.filter (fun (p : Json × Bool) => !p.2)).map (fun (p : Json × Bool) => p.1)
      | _ => ([] : List Json)
    if conditionalTransforms.length > 0 && normalTransforms.length > 0 then
      .error "Mixing of conditional transforms and normal transforms not allowed"
    else if conditionalTransforms.length == 0 then
      .ok (.arr transformFunctionObjects)
    else
      match groupResults tbl sources conditionalTransforms with
      | .error e => .error e
      | .ok rs => .ok ((rs.filter (fun x => !isUndefinedJ x)).headD .undef)

/-! JsonMapper (src/json-mapper.js). -/

/-- Optional `preProcess` callback: a user function of one argument. -/
def PreFn := Json → Except String Json

/-- Element-wise preprocessing `resolvedSourceValues.map(v => this.preProcess(v))`;
a throwing preprocessor propagates. -/
def preAll (p : PreFn) : List Json → Except String (List Json)
  | [] => .ok []
  | x :: xs =>
    match p x with
    | .error e => .error e
    | .ok y =>
      match preAll p xs with
      | .error e => .error e
      | .ok ys => .ok (y :: ys)

/-- The preprocessing block of `JsonMapper._mapValue`. When a preprocessor is
supplied and the *source directive* (`sourcesValues`, the unresolved path spec)
is an array, the code maps the preprocessor over `resolvedSourceValues`; when
every path of the list resolved to absent, `resolvedSourceValues` is `undefined`
and the `.map` call throws a `TypeError`. Otherwise the single resolved value is
passed to the preprocessor whole. -/
def preprocessStage (pre : Option PreFn) (sourcesValues resolvedSourceValues : Json) :
    Except String Json :=
  match pre with
  | none => .ok resolvedSourceValues
  | some p =>
    if jsIsArray sourcesValues then
      match resolvedSourceValues with
      | .arr xs =>
        match preAll p xs with
        | .error e => .error e
        | .ok ys => .ok (.arr ys)
      | _ => .error "TypeError: resolvedSourceValues.map is not a function"
    else p resolvedSourceValues

/-- Embeds `JsonMapper._mapValue`, the per-mapping-node state machine: resolve
the source directive, gate on the condition (returning `_default` immediately
when it fails), preprocess, run the transform chain when the current value is
not absent, run `_transformEach` element-wise when the current value is an
array, and fall back to `_default` when the final value is absent. -/
def mapValue (tbl : TransformSource) (pre : Option PreFn) (src valueMapping : Json) :
    Except String Json :=
  let conditionFunctions := jsOr (jsField valueMapping "_condition") (jsField valueMapping "_conditions")
  let defaultValue := jsField valueMapping "_default"
  let sourcesValues := jsOr (jsField valueMapping "_source") (jsField valueMapping "_sources")
  let transformFunctions := jsOr (jsField valueMapping "_transform") (jsField valueMapping "_transforms")
  let transformEachFunction := jsField valueMapping "_transformEach"
  match resolveSource src sourcesValues with
  | .error e => .error e
  | .ok resolvedSourceValues =>
    match (if isTruthy conditionFunctions
           then checkCondition tbl resolvedSourceValues conditionFunctions
           else .ok true) with
    | .error e => .error e
    | .ok conditionMet =>
      if !conditionMet then .ok defaultValue
      else
        match preprocessStage pre sourcesValues resolvedSourceValues with
        | .error e => .error e
        | .ok preprocessedValue =>
          let transformedValue :=
            if isTruthy transformFunctions && !isUndefinedJ preprocessedValue
            then transformValue tbl preprocessedValue transformFunctions
            else preprocessedValue
          let mappedValue :=
            match transformedValue with
            | .arr xs =>
              if isTruthy transformEachFunction
              then .arr (xs.map (fun v => transformValue tbl v transformEachFunction))
              else .arr xs
            | v => v
          .ok (if isUndefinedJ mappedValue then defaultValue else mappedValue)

/-- The iterator closure of `JsonMapper.map`: replaces a node by its mapped
value exactly when it is an object whose `_source || _sources` is a string or
an array; every other node passes through unchanged. -/
def mapIterator (tbl : TransformSource) (pre : Option PreFn) (src value : Json) :
    Except String Json :=
  let sourceValue := jsOr (jsField value "_source") (jsField value "_sources")
  if jsIsObject value && (jsIsString sourceValue || jsIsArray sourceValue)
  then mapValue tbl pre src value
  else .ok value

mutual

/-- Embeds `JsonMapper._traverseMap`: bottom-up rewrite — children first, then
the iterator on the rebuilt node. -/
def traverseMap (it : Json → Except String Json) : Json → Except String Json
  | .arr xs =>
    match traverseMapList it xs with
    | .error e => .error e
    | .ok ys => it (.arr ys)
  | .obj fs =>
    match traverseMapFields it fs with
    | .error e => .error e
    | .ok gs => it (.obj gs)
  | v => it v

def traverseMapList (it : Json → Except String Json) :
    List Json → Except String (List Json)
  | [] => .ok []
  | x :: xs =>
    match traverseMap it x with
    | .error e => .error e
    | .ok y =>
      match traverseMapList it xs with
      | .error e => .error e
      | .ok ys => .ok (y :: ys)

def traverseMapFields (it : Json → Except String Json) :
    List (String × Json) → Except String (List (String × Json))
  | [] => .ok []
  | (k, v) :: fs =>
    match traverseMap it v with
    | .error e => .error e
    | .ok w =>
      match traverseMapFields it fs with
      | .error e => .error e
      | .ok gs => .ok ((k, w) :: gs)

end

/-- Embeds the `JsonMapper` constructor checks plus `map`: the two structural
configuration errors, then the bottom-up rewrite of the whole template. -/
def mapJson (sourceObject mappingObject : Json) (tbl : TransformSource)
    (pre : Option PreFn) : Except String Json :=
  if !jsIsObject sourceObject then .error "No source object provided"
  else if !jsIsObject mappingObject then .error "No mapping provided"
  else traverseMap (mapIterator tbl pre sourceObject) mappingObject

/-! Basic lemmas about the embedding. -/

theorem isUndefinedJ_iff (v : Json) : isUndefinedJ v = true ↔ v = .undef := by
  cases v <;> simp [isUndefinedJ]

theorem resolvePathList_strs (src : Json) (paths : List String) :
    resolvePathList src (paths.map Json.str) = .ok (paths.map (resolveKeyPath src)) := by
  induction paths with
  | nil => rfl
  | cons p ps ih => simp [resolvePathList, ih]

/-- C1: for every source tree and every key-path containing a wildcard segment,
resolution goes through the wildcard search, discards every branch whose final
value is absent (the filter against `undefined` over the search results), and
returns: absent when zero matches survive, the single matched value itself when
exactly one survives, and the ordered sequence of surviving matches (in the
order the search walks the tree) when two or more survive. -/
theorem C1_wildcard_resolution (src : Json) (keyPath : String)
    (h : "*" ∈ splitPath keyPath) :
    ((dottySearch src (splitPath keyPath)).filter (fun r => !isUndefinedJ r) = [] →
        resolveKeyPath src keyPath = .undef) ∧
    (∀ v, (dottySearch src (splitPath keyPath)).filter (fun r => !isUndefinedJ r) = [v] →
        resolveKeyPath src keyPath = v) ∧
    (∀ v vs, (dottySearch src (splitPath keyPath)).filter (fun r => !isUndefinedJ r) = v :: vs →
        vs ≠ [] → resolveKeyPath src keyPath = .arr (v :: vs)) := by
  have hc : keyPath.data.contains '*' = true := contains_star_of_star_segment keyPath h
  unfold resolveKeyPath
  rw [hc]
  simp only [if_true]
  refine ⟨?_, ?_, ?_⟩
  · intro he; rw [he]
  · intro v he; rw [he]
  · intro v vs he hne
    rw [he]
    cases vs with
    | nil => exact absurd rfl hne
    | cons w ws => rfl

/-- Witness for C1 at the scenario of spec section 8: source
`{list: [{n:1},{n:2},{n:3}]}` and path `list.*.n` give the ordered sequence
`[1,2,3]`. -/
theorem C1_wildcard_resolution_witness :
    resolveKeyPath
        (.obj [("list", .arr [.obj [("n", .num 1)], .obj [("n", .num 2)], .obj [("n", .num 3)]])])
        "list.*.n" = .arr [.num 1, .num 2, .num 3] := by
  have := (C1_wildcard_resolution
      (.obj [("list", .arr [.obj [("n", .num 1)], .obj [("n", .num 2)], .obj [("n", .num 3)]])])
      "list.*.n" (by decide)).2.2 (.num 1) [.num 2, .num 3] (by decide) (by decide)
  simpa using this

/-- C2: a multi-source directive resolves every key-path independently, keeps
absent results in their slots (so the result is the index-parallel image of the
path list), and the aggregate is absent exactly when every path resolves to
absent. -/
theorem C2_multi_source_resolution (src : Json) (paths : List String) :
    (resolveSource src (.arr (paths.map Json.str)) = .ok .undef ↔
      ∀ p ∈ paths, resolveKeyPath src p = .undef) ∧
    ((∃ p ∈ paths, resolveKeyPath src p ≠ .undef) →
      resolveSource src (.arr (paths.map Json.str)) =
        .ok (.arr (paths.map (resolveKeyPath src)))) := by
  have hall : (paths.map (resolveKeyPath src)).all isUndefinedJ = true ↔
      ∀ p ∈ paths, resolveKeyPath src p = .undef := by
    simp [List.all_eq_true, isUndefinedJ_iff]
  constructor
  · constructor
    · intro he
      rw [← hall]
      by_contra hno
      simp only [resolveSource, resolvePathList_strs, hno, if_false] at he
      simp at he
    · intro hu
      simp only [resolveSource, resolvePathList_strs, hall.mpr hu, if_true]
  · intro hex
    have : ¬ (paths.map (resolveKeyPath src)).all isUndefinedJ = true := by
      rw [hall]
      push_neg
      exact hex
    simp only [resolveSource, resolvePathList_strs, this, if_false]
    simp

/-- Witness for C2: paths `["a", "missing"]` on source `{a: 1}` give
`[1, absent]`, and two missing paths collapse to absent. -/
theorem C2_multi_source_resolution_witness :
    resolveSource (.obj [("a", .num 1)]) (.arr [.str "a", .str "missing"])
      = .ok (.arr [.num 1, .undef]) ∧
    resolveSource (.obj [("a", .num 1)]) (.arr [.str "m1", .str "m2"]) = .ok .undef := by
  constructor
  · have := (C2_multi_source_resolution (.obj [("a", .num 1)]) ["a", "missing"]).2
      (by refine ⟨"a", by simp, by decide⟩)
    simpa using this
  · exact (C2_multi_source_resolution (.obj [("a", .num 1)]) ["m1", "m2"]).1.mpr
      (by intro p hp; fin_cases hp <;> decide)

/-- C10: only the first enumerated key of a call object and its argument list
are used; a call object with additional keys behaves identically, in the raw
invocation as well as through `checkCondition` and `transformValue`, to the
call object containing only its first key. -/
theorem C10_first_key_only (tbl : TransformSource) (k : String) (args : Json)
    (rest : List (String × Json)) (v sources : Json) :
    runFunction tbl (.obj ((k, args) :: rest)) v = runFunction tbl (.obj [(k, args)]) v ∧
    checkCondition tbl sources (.obj ((k, args) :: rest)) =
      checkCondition tbl sources (.obj [(k, args)]) ∧
    transformValue tbl v (.obj ((k, args) :: rest)) = transformValue tbl v (.obj [(k, args)]) := by
  have hrun : ∀ w, runFunction tbl (.obj ((k, args) :: rest)) w =
      runFunction tbl (.obj [(k, args)]) w := by
    intro w
    simp [runFunction, jsKeysE, jsIndex, List.lookup]
  refine ⟨hrun v, ?_, ?_⟩
  · simp [checkCondition, jsConcatList, condResults, jsKeysE, hrun]
  · simp [transformValue, jsConcatList, transformChain, hrun]

/-! Modifier-parsing lemmas for C5. -/

theorem checkFunctionModifier_at_bang (name : String) :
    checkFunctionModifier ("@!" ++ name) = ⟨true, true, name⟩ := by
  have hdata : ("@!" ++ name).data = '@' :: '!' :: name.data := rfl
  simp [checkFunctionModifier, startsWithChars, removeFirstChar, hdata,
    List.isPrefixOf, removeFirstChar.go]

theorem checkFunctionModifier_bang_at (name : String) :
    checkFunctionModifier ("!@" ++ name) = ⟨true, true, name⟩ := by
  have hdata : ("!@" ++ name).data = '!' :: '@' :: name.data := rfl
  simp [checkFunctionModifier, startsWithChars, removeFirstChar, hdata,
    List.isPrefixOf, removeFirstChar.go]

theorem checkFunctionModifier_at (name : String)
    (h : startsWithChars name ['!'] = false) :
    checkFunctionModifier ("@" ++ name) = ⟨true, false, name⟩ := by
  have hdata : ("@" ++ name).data = '@' :: name.data := rfl
  simp [startsWithChars] at h
  simp [checkFunctionModifier, startsWithChars, removeFirstChar, hdata,
    List.isPrefixOf, removeFirstChar.go, h]

theorem checkFunctionModifier_plain (name : String)
    (h₁ : startsWithChars name ['!'] = false) (h₂ : startsWithChars name ['@'] = false) :
    checkFunctionModifier name = ⟨false, false, name⟩ := by
  simp [startsWithChars] at h₁ h₂
  have hb : List.isPrefixOf ['!', '@'] name.data = false := by
    cases hd : name.data with
    | nil => rfl
    | cons c cs =>
      rw [hd] at h₁
      simp [List.isPrefixOf] at h₁ ⊢
      intro hc
      exact absurd hc h₁
  have ha : List.isPrefixOf ['@', '!'] name.data = false := by
    cases hd : name.data with
    | nil => rfl
    | cons c cs =>
      rw [hd] at h₂
      simp [List.isPrefixOf] at h₂ ⊢
      intro hc
      exact absurd hc h₂
  simp [checkFunctionModifier, startsWithChars, h₁, h₂, ha, hb]

theorem checkFunctionModifier_bang (name : String)
    (h : startsWithChars name ['@'] = false) :
    checkFunctionModifier ("!" ++ name) = ⟨false, true, name⟩ := by
  have hdata : ("!" ++ name).data = '!' :: name.data := rfl
  simp [startsWithChars] at h
  simp [checkFunctionModifier, startsWithChars, removeFirstChar, hdata,
    List.isPrefixOf, removeFirstChar.go, h]

/-- C5: prefix modifiers parse order-insensitively (both `@!name` and `!@name`
activate both modifiers and strip to `name`, for every `name`); with `@` active
the declared arguments are passed without prepending the current value, without
`@` the current value is prepended as the first argument; with `!` active a
boolean raw result is negated and any non-boolean raw result passes through
unchanged. The stripped name is what is looked up in the function table. -/
theorem C5_function_name_modifiers (tbl : TransformSource) (name : String)
    (f : List Json → Except String Json) (args : List Json) (v : Json) :
    (checkFunctionModifier ("@!" ++ name) = ⟨true, true, name⟩ ∧
     checkFunctionModifier ("!@" ++ name) = ⟨true, true, name⟩) ∧
    (startsWithChars name ['!'] = false → List.lookup name tbl = some f →
      runFunction tbl (.obj [("@" ++ name, .arr args)]) v = f args) ∧
    (startsWithChars name ['!'] = false → startsWithChars name ['@'] = false →
     List.lookup name tbl = some f →
      runFunction tbl (.obj [(name, .arr args)]) v = f (v :: args)) ∧
    (startsWithChars name ['@'] = false → List.lookup name tbl = some f →
      ∀ w, f (v :: args) = .ok w →
        (jsIsBoolean w = false →
          runFunction tbl (.obj [("!" ++ name, .arr args)]) v = .ok w) ∧
        (∀ b, w = .bool b →
          runFunction tbl (.obj [("!" ++ name, .arr args)]) v = .ok (.bool (!b)))) := by
  refine ⟨⟨checkFunctionModifier_at_bang name, checkFunctionModifier_bang_at name⟩, ?_, ?_, ?_⟩
  · intro h hl
    have hcf := checkFunctionModifier_at name h
    simp [runFunction, jsKeysE, jsIndex, List.lookup, jsConcatList, hcf, hl]
    cases f args <;> simp
  · intro h₁ h₂ hl
    have hcf := checkFunctionModifier_plain name h₁ h₂
    simp [runFunction, jsKeysE, jsIndex, List.lookup, jsConcatList, hcf, hl]
    cases f (v :: args) <;> simp
  · intro h hl w hw
    have hcf := checkFunctionModifier_bang name h
    constructor
    · intro hnb
      simp [runFunction, jsKeysE, jsIndex, List.lookup, hcf, hl, jsConcatList, hw, hnb]
    · intro b hb
      subst hb
      simp [runFunction, jsKeysE, jsIndex, List.lookup, hcf, hl, jsConcatList, hw,
        jsIsBoolean, jsNegate]

/-- Witness for C5 at concrete inputs: with a table containing `eq2`, the call
`{"@!eq2": [2, 2]}` drops the current value and negates the boolean result. -/
theorem C5_function_name_modifiers_witness :
    runFunction [("eq2", fun as => .ok (.bool (as = [Json.num 2, Json.num 2])))]
        (.obj [("@!eq2", .arr [.num 2, .num 2])]) (.str "cur") = .ok (.bool false) ∧
    runFunction [("eq2", fun as => .ok (.bool (as = [Json.num 2, Json.num 2])))]
        (.obj [("!eq2", .arr [.num 2])]) (.num 2) = .ok (.bool false) := by
  have h5 := C5_function_name_modifiers
    [("eq2", fun as => .ok (.bool (as = [Json.num 2, Json.num 2])))] "eq2"
    (fun as => .ok (.bool (as = [Json.num 2, Json.num 2]))) [.num 2] (.num 2)
  constructor
  · have hmods := (C5_function_name_modifiers
      [("eq2", fun as => .ok (.bool (as = [Json.num 2, Json.num 2])))] "eq2"
      (fun as => .ok (.bool (as = [Json.num 2, Json.num 2]))) [.num 2, .num 2] (.str "cur")).1.1
    simp [runFunction, jsKeysE, jsIndex, List.lookup, hmods, jsConcatList,
      jsIsBoolean, jsNegate]
    decide
  · have := (h5.2.2.2 (by decide) (by simp [List.lookup])) (.bool true) (by decide)
    have hres := this.2 true rfl
    simpa using hres

/-- A transform chain aborts with `undefined` for the whole chain as soon as one
call throws, whatever succeeded before and whatever follows. -/
theorem transformChain_append_error (tbl : TransformSource) :
    ∀ (front : List Json) (v w c : Json) (back : List Json) (e : String),
      chainSteps tbl v front = .ok w → runFunction tbl c w = .error e →
      transformChain tbl v (front ++ c :: back) = .undef := by
  intro front
  induction front with
  | nil =>
    intro v w c back e hs hf
    simp [chainSteps] at hs
    subst hs
    simp [transformChain, hf]
  | cons g gs ih =>
    intro v w c back e hs hf
    simp only [chainSteps] at hs
    cases hg : runFunction tbl g v with
    | error e₂ => rw [hg] at hs; simp at hs
    | ok u =>
      rw [hg] at hs
      simp only [List.cons_append, transformChain, hg]
      exact ih u w c back e hs hf

/-- C3: if any call of a transform chain throws — after the earlier calls ran
successfully to the current value `w` — `transformValue` yields absent for the
entire chain (no partial result), and a mapping node carrying that chain then
resolves to its `_default` (which is absent when no default is given). -/
theorem C3_transform_chain_failure (tbl : TransformSource) (v : Json)
    (front : List Json) (c : Json) (back : List Json) (w : Json) (e : String)
    (hsteps : chainSteps tbl v front = .ok w)
    (hfail : runFunction tbl c w = .error e) :
    transformValue tbl v (.arr (front ++ c :: back)) = .undef ∧
    (∀ (src : Json) (s : String) (d te : Json), s ≠ "" →
      resolveKeyPath src s = v →
      mapValue tbl none src (.obj [("_source", .str s),
        ("_transform", .arr (front ++ c :: back)), ("_transformEach", te),
        ("_default", d)]) = .ok d) := by
  have hchain : transformChain tbl v (front ++ c :: back) = .undef :=
    transformChain_append_error tbl front v w c back e hsteps hfail
  constructor
  · simpa [transformValue, jsConcatList] using hchain
  · intro src s d te hns hres
    have htv : transformValue tbl v (.arr (front ++ c :: back)) = .undef := by
      simpa [transformValue, jsConcatList] using hchain
    by_cases hv : isUndefinedJ v = true
    · rw [isUndefinedJ_iff] at hv
      simp [mapValue, jsField, jsIndex, List.lookup, jsOr, isTruthy,
        resolveSource, preprocessStage, hres, hv, hns, isUndefinedJ]
    · have hv' : isUndefinedJ v = false := by
        cases hisv : isUndefinedJ v
        · rfl
        · exact absurd hisv hv
      have hu : isUndefinedJ Json.undef = true := rfl
      simp [mapValue, jsField, jsIndex, List.lookup, jsOr, isTruthy,
        resolveSource, preprocessStage, hres, hns, hv', htv, hu]

/-- Witness for C3 at the scenario of spec section 8: the chain
`[{add:[1]},{fail:[]},{add:[3]}]` on value `1` yields absent for the whole
chain, and a node carrying it resolves to its default `"d"`. -/
theorem C3_transform_chain_failure_witness :
    transformValue
        [("add", fun as => match as with
            | [.num a, .num b] => .ok (.num (a + b))
            | _ => .error "bad arity"),
         ("fail", fun _ => .error "forced fail")]
        (.num 1)
        (.arr [.obj [("add", .arr [.num 1])], .obj [("fail", .arr [])],
               .obj [("add", .arr [.num 3])]]) = .undef ∧
    mapValue
        [("add", fun as => match as with
            | [.num a, .num b] => .ok (.num (a + b))
            | _ => .error "bad arity"),
         ("fail", fun _ => .error "forced fail")]
        none (.obj [("a", .num 1)])
        (.obj [("_source", .str "a"),
          ("_transform", .arr [.obj [("add", .arr [.num 1])], .obj [("fail", .arr [])],
            .obj [("add", .arr [.num 3])]]),
          ("_transformEach", .undef), ("_default", .str "d")]) = .ok (.str "d") := by
  have h3 := C3_transform_chain_failure
    [("add", fun as => match as with
        | [.num a, .num b] => .ok (.num (a + b))
        | _ => .error "bad arity"),
     ("fail", fun _ => .error "forced fail")]
    (.num 1) [.obj [("add", .arr [.num 1])]] (.obj [("fail", .arr [])])
    [.obj [("add", .arr [.num 3])]] (.num 2) "forced fail"
    (by decide) (by decide)
  exact ⟨h3.1, h3.2 (.obj [("a", .num 1)]) "a" (.str "d") .undef (by decide) (by decide)⟩

/-! Lemmas for C4: conditional transform group selection. -/

/-- Decides whether a conditional transform group's condition check returned
exactly `.ok true`. -/
def condMetB (tbl : TransformSource) (sources g : Json) : Bool :=
  match checkCondition tbl sources (jsField g "_condition") with
  | .ok true => true
  | _ => false

theorem markConditionals_ok (xs : List Json)
    (h : ∀ x ∈ xs, jsIsObject x = true) :
    markConditionals xs =
      .ok (xs.map (fun x => (x, !isUndefinedJ (jsField x "_condition")))) := by
  induction xs with
  | nil => rfl
  | cons x xs ih =>
    have hx := h x (by simp)
    have hxe : jsIndexE x "_condition" = .ok (jsIndex x "_condition") := by
      cases x <;> simp_all [jsIsObject, jsIndexE]
    simp [markConditionals, hxe, ih (fun z hz => h z (by simp [hz])), jsField]

theorem marked_proj (pr : Json → Bool) (xs : List Json) :
    ((xs.map (fun x => (x, pr x))).filter (fun (p : Json × Bool) => p.2)).map
        (fun (p : Json × Bool) => p.1) = xs.filter pr ∧
    ((xs.map (fun x => (x, pr x))).filter (fun (p : Json × Bool) => !p.2)).map
        (fun (p : Json × Bool) => p.1) = xs.filter (fun x => !pr x) := by
  induction xs with
  | nil => exact ⟨rfl, rfl⟩
  | cons x xs ih =>
    cases hx : pr x <;> simp [List.filter, hx, ih.1, ih.2]

theorem find?_getD_eq_filter_headD {α : Type} (p : α → Bool) (d : α) :
    ∀ l : List α, (l.find? p).getD d = (l.filter p).headD d := by
  intro l
  induction l with
  | nil => rfl
  | cons x xs ih =>
    cases hx : p x
    · rw [List.find?_cons_of_neg, List.filter_cons_of_neg]
      · exact ih
      · simp [hx]
      · simp [hx]
    · rw [List.find?_cons_of_pos, List.filter_cons_of_pos]
      · rfl
      · simp [hx]
      · simp [hx]

theorem groupResults_first_match (tbl : TransformSource) (sources : Json) (xs : List Json)
    (hok : ∀ x ∈ xs, ∃ b, checkCondition tbl sources (jsField x "_condition") = .ok b)
    (htr : ∀ x ∈ xs, jsField x "_transform" ≠ .undef) :
    ∃ rs, groupResults tbl sources xs = .ok rs ∧
      ((rs.filter (fun r => !isUndefinedJ r)).headD .undef =
        match xs.find? (condMetB tbl sources) with
        | some g => jsField g "_transform"
        | none => .undef) := by
  induction xs with
  | nil => exact ⟨[], rfl, rfl⟩
  | cons g gs ih =>
    obtain ⟨b, hb⟩ := hok g (by simp)
    obtain ⟨rs, hrs, hh⟩ :=
      ih (fun z hz => hok z (by simp [hz])) (fun z hz => htr z (by simp [hz]))
    cases b with
    | true =>
      refine ⟨jsField g "_transform" :: rs, ?_, ?_⟩
      · simp [groupResults, hb, hrs]
      · have hcm : condMetB tbl sources g = true := by simp [condMetB, hb]
        have hne : isUndefinedJ (jsField g "_transform") = false := by
          have := htr g (by simp)
          cases hjf : jsField g "_transform" <;> simp_all [isUndefinedJ]
        simp [List.find?, hcm, List.filter, hne]
    | false =>
      refine ⟨.undef :: rs, ?_, ?_⟩
      · simp [groupResults, hb, hrs]
      · have hcm : condMetB tbl sources g = false := by simp [condMetB, hb]
        simpa [List.find?, hcm, List.filter, isUndefinedJ] using hh

set_option maxRecDepth 4000 in
/-- C4: for a transform specification that is a sequence of call objects — if no
element carries a `_condition` the specification is returned unchanged; if every
element is a conditional transform group (carrying `_condition` and a defined
`_transform`) the `_transform` of the first group whose condition holds (checked
via `checkCondition` against the `sources` argument, the original source values)
is returned, absent when no group's condition holds; and mixing plain calls with
condition-bearing groups raises the configuration error. -/
theorem C4_conditional_transform_selection (tbl : TransformSource) (sources : Json)
    (xs : List Json) (hobjs : ∀ x ∈ xs, jsIsObject x = true) :
    ((∀ x ∈ xs, jsField x "_condition" = .undef) →
      resolveTransformConditions tbl sources (.arr xs) = .ok (.arr xs)) ∧
    (xs ≠ [] →
     (∀ x ∈ xs, jsField x "_condition" ≠ .undef ∧ jsField x "_transform" ≠ .undef) →
     (∀ x ∈ xs, ∃ b, checkCondition tbl sources (jsField x "_condition") = .ok b) →
      resolveTransformConditions tbl sources (.arr xs) =
        .ok (match xs.find? (condMetB tbl sources) with
             | some g => jsField g "_transform"
             | none => .undef)) ∧
    ((∃ x ∈ xs, jsField x "_condition" ≠ .undef) →
     (∃ y ∈ xs, jsField y "_condition" = .undef) →
      resolveTransformConditions tbl sources (.arr xs) =
        .error "Mixing of conditional transforms and normal transforms not allowed") := by
  have hmark := markConditionals_ok xs hobjs
  have hproj := marked_proj (fun x => !isUndefinedJ (jsField x "_condition")) xs
  refine ⟨?_, ?_, ?_⟩
  · intro hall
    have hfilter : xs.filter (fun x => !isUndefinedJ (jsField x "_condition")) = [] := by
      rw [List.filter_eq_nil_iff]
      intro x hx
      simp [hall x hx, isUndefinedJ]
    simp [resolveTransformConditions, jsOr, isTruthy, jsConcatList, hmark,
      hproj.1, hfilter]
  · intro hne hgroups hok
    have hfilter : xs.filter (fun x => !isUndefinedJ (jsField x "_condition")) = xs := by
      rw [List.filter_eq_self]
      intro x hx
      have := (hgroups x hx).1
      cases hjf : jsField x "_condition" <;> simp_all [isUndefinedJ]
    obtain ⟨rs, hrs, hh⟩ := groupResults_first_match tbl sources xs hok
      (fun x hx => (hgroups x hx).2)
    have hzero : (xs.length == 0) = false := by
      cases xs
      · exact absurd rfl hne
      · rfl
    have hfim : List.filter (fun x => isUndefinedJ (jsField x "_condition")) xs = [] := by
      rw [List.filter_eq_nil_iff]
      intro x hx
      have := (hgroups x hx).1
      cases hjf : jsField x "_condition" <;> simp_all [isUndefinedJ]
    have hh2 : (List.find? (fun x => !isUndefinedJ x) rs).getD Json.undef =
        (match List.find? (condMetB tbl sources) xs with
         | some g => jsField g "_transform"
         | none => Json.undef) := by
      rw [find?_getD_eq_filter_headD]
      exact hh
    simp [resolveTransformConditions, jsOr, isTruthy, jsConcatList, hmark,
      hproj.1, hproj.2, hfilter, hrs, hzero, hfim, hh2]
  · intro ⟨x, hx, hxdef⟩ ⟨y, hy, hyundef⟩
    have hxmem : x ∈ xs.filter (fun z => !isUndefinedJ (jsField z "_condition")) := by
      rw [List.mem_filter]
      refine ⟨hx, ?_⟩
      cases hjf : jsField x "_condition" <;> simp_all [isUndefinedJ]
    have hymem : y ∈ xs.filter (fun z => isUndefinedJ (jsField z "_condition")) := by
      rw [List.mem_filter]
      exact ⟨hy, by simp [hyundef, isUndefinedJ]⟩
    have hxlen : 0 < (xs.filter (fun z => !isUndefinedJ (jsField z "_condition"))).length :=
      List.length_pos.mpr (List.ne_nil_of_mem hxmem)
    have hylen : 0 < (xs.filter (fun z => isUndefinedJ (jsField z "_condition"))).length :=
      List.length_pos.mpr (List.ne_nil_of_mem hymem)
    simp [resolveTransformConditions, jsOr, isTruthy, jsConcatList, hmark,
      hproj.1, hproj.2, hxlen, hylen]

/-- Witness for C4: with two conditional groups the first met group's transform
is selected; mixing a plain call with a group raises the configuration error. -/
theorem C4_conditional_transform_selection_witness :
    resolveTransformConditions
        [("returnTrue", fun _ => .ok (.bool true)), ("returnFalse", fun _ => .ok (.bool false))]
        (.str "s")
        (.arr [.obj [("_condition", .obj [("returnFalse", .arr [])]), ("_transform", .str "A")],
               .obj [("_condition", .obj [("returnTrue", .arr [])]), ("_transform", .str "B")]])
      = .ok (.str "B") ∧
    resolveTransformConditions
        [("returnTrue", fun _ => .ok (.bool true)), ("returnFalse", fun _ => .ok (.bool false))]
        (.str "s")
        (.arr [.obj [("addX", .arr [])],
               .obj [("_condition", .obj [("returnTrue", .arr [])]), ("_transform", .str "B")]])
      = .error "Mixing of conditional transforms and normal transforms not allowed" := by
  constructor
  · have hb := (C4_conditional_transform_selection
      [("returnTrue", fun _ => .ok (.bool true)), ("returnFalse", fun _ => .ok (.bool false))]
      (.str "s")
      [.obj [("_condition", .obj [("returnFalse", .arr [])]), ("_transform", .str "A")],
       .obj [("_condition", .obj [("returnTrue", .arr [])]), ("_transform", .str "B")]]
      (by intro x hx; fin_cases hx <;> decide)).2.1
      (by decide)
      (by intro x hx; fin_cases hx <;> exact ⟨by decide, by decide⟩)
      (by
        intro x hx
        fin_cases hx
        · exact ⟨false, by decide⟩
        · exact ⟨true, by decide⟩)
    rw [hb]
    decide
  · have hc := (C4_conditional_transform_selection
      [("returnTrue", fun _ => .ok (.bool true)), ("returnFalse", fun _ => .ok (.bool false))]
      (.str "s")
      [.obj [("addX", .arr [])],
       .obj [("_condition", .obj [("returnTrue", .arr [])]), ("_transform", .str "B")]]
      (by intro x hx; fin_cases hx <;> decide)).2.2
      (by exact ⟨.obj [("_condition", .obj [("returnTrue", .arr [])]), ("_transform", .str "B")],
            by simp, by decide⟩)
      (by exact ⟨.obj [("addX", .arr [])], by simp, by decide⟩)
    exact hc

/-- C7 (code bug): with a preprocessor supplied and a multi-source directive
whose key-paths all resolve to absent, `_mapValue` tests `_.isArray` on the
*unresolved* directive but maps over the *resolved* value, which is `undefined`
in this case — so `map` throws a `TypeError` instead of completing preprocessing
and falling back to the default value as the spec requires (the previous
revision of the mapper tested the resolved value and behaved per the spec). -/
theorem C7_all_absent_multi_source_preprocess_throws :
    mapJson (.obj []) (.obj [("x", .obj [("_source", .arr [.str "notDefined"]),
        ("_default", .str "d")])]) [] (some (fun v => .ok v))
      = .error "TypeError: resolvedSourceValues.map is not a function" ∧
    mapJson (.obj []) (.obj [("x", .obj [("_source", .arr [.str "notDefined"]),
        ("_default", .str "d")])]) [] none
      = .ok (.obj [("x", .str "d")]) := by
  constructor <;> decide

/-- C8: with a single source key-path and a supplied preprocessor, the whole
resolved value — whatever it is, including an array produced by a wildcard — is
passed to the preprocessor as one argument and its result is the node's value;
element-wise preprocessing happens exactly when the source directive itself is
a list of key-paths, where the resolved values are preprocessed slot by slot. -/
theorem C8_preprocess_whole_vs_elementwise (tbl : TransformSource) (src : Json) (p : PreFn) :
    (∀ (s : String) (w : Json), s ≠ "" → p (resolveKeyPath src s) = .ok w →
      isUndefinedJ w = false →
      mapValue tbl (some p) src (.obj [("_source", .str s)]) = .ok w) ∧
    (∀ (paths : List String) (ws : List Json),
      (∃ q ∈ paths, resolveKeyPath src q ≠ .undef) →
      preAll p (paths.map (resolveKeyPath src)) = .ok ws →
      mapValue tbl (some p) src (.obj [("_source", .arr (paths.map Json.str))])
        = .ok (.arr ws)) := by
  constructor
  · intro s w hns hp hw
    have hu : isUndefinedJ Json.undef = true := rfl
    cases w <;>
      simp_all [mapValue, jsField, jsIndex, List.lookup, jsOr, isTruthy,
        resolveSource, preprocessStage, jsIsArray, isUndefinedJ]
  · intro paths ws hex hpre
    have hallf : (paths.map (resolveKeyPath src)).all isUndefinedJ = false := by
      cases hall : (paths.map (resolveKeyPath src)).all isUndefinedJ
      · rfl
      · exfalso
        obtain ⟨q, hq, hqv⟩ := hex
        rw [List.all_eq_true] at hall
        have := hall (resolveKeyPath src q) (List.mem_map_of_mem _ hq)
        rw [isUndefinedJ_iff] at this
        exact hqv this
    simp [mapValue, jsField, jsIndex, List.lookup, jsOr, isTruthy,
      resolveSource, resolvePathList_strs, hallf, preprocessStage, jsIsArray, hpre,
      isUndefinedJ]

/-- Witness for C8: a wildcard array is handed to the preprocessor whole (here
it is wrapped once more), while a two-path directive is preprocessed slot-wise
(absent slots included). -/
theorem C8_preprocess_whole_vs_elementwise_witness :
    mapValue [] (some (fun v => .ok (.arr [v])))
        (.obj [("l", .arr [.obj [("n", .num 1)], .obj [("n", .num 2)]])])
        (.obj [("_source", .str "l.*.n")])
      = .ok (.arr [.arr [.num 1, .num 2]]) ∧
    mapValue [] (some (fun v => .ok (.arr [v])))
        (.obj [("a", .num 5)])
        (.obj [("_source", .arr [.str "a", .str "missing"])])
      = .ok (.arr [.arr [.num 5], .arr [.undef]]) := by
  constructor
  · have := (C8_preprocess_whole_vs_elementwise []
        (.obj [("l", .arr [.obj [("n", .num 1)], .obj [("n", .num 2)]])])
        (fun v => .ok (.arr [v]))).1 "l.*.n" (.arr [.arr [.num 1, .num 2]])
        (by decide) (by decide) (by decide)
    exact this
  · have := (C8_preprocess_whole_vs_elementwise []
        (.obj [("a", .num 5)]) (fun v => .ok (.arr [v]))).2 ["a", "missing"]
        [.arr [.num 5], .arr [.undef]]
        ⟨"a", by simp, by decide⟩ (by decide)
    exact this

/-- Counterexample to C9 as stated: an object node carrying a `_source` field
whose value is a number (neither string nor array) is not treated as a Mapping
Node — `map` copies it into the output unchanged instead of replacing it with
a resolved value. -/
theorem C9_nonstring_source_counterexample :
    mapJson (.obj [("k", .num 7)]) (.obj [("x", .obj [("_source", .num 123)])]) [] none
      = .ok (.obj [("x", .obj [("_source", .num 123)])]) := by decide

theorem jsField_arr_undef (ys : List Json) (k : String) (hk : parseIndex k = none) :
    jsField (.arr ys) k = .undef := by
  simp only [jsField, jsIndex, hk]

theorem traverseMapList_forall2 (it : Json → Except String Json) :
    ∀ xs ys, traverseMapList it xs = .ok ys →
      List.Forall₂ (fun x y => traverseMap it x = .ok y) xs ys := by
  intro xs
  induction xs with
  | nil =>
    intro ys h
    simp only [traverseMapList] at h
    cases h
    exact .nil
  | cons x xs ih =>
    intro ys h
    simp only [traverseMapList] at h
    cases hx : traverseMap it x with
    | error e => rw [hx] at h; simp at h
    | ok y =>
      rw [hx] at h
      cases hxs : traverseMapList it xs with
      | error e => rw [hxs] at h; simp at h
      | ok ys' =>
        rw [hxs] at h
        cases h
        exact .cons hx (ih ys' hxs)

theorem traverseMapFields_forall2 (it : Json → Except String Json) :
    ∀ fs gs, traverseMapFields it fs = .ok gs →
      gs.map Prod.fst = fs.map Prod.fst ∧
      List.Forall₂ (fun kv kw => kv.1 = kw.1 ∧ traverseMap it kv.2 = .ok kw.2) fs gs := by
  intro fs
  induction fs with
  | nil =>
    intro gs h
    simp only [traverseMapFields] at h
    cases h
    exact ⟨rfl, .nil⟩
  | cons kv fs ih =>
    intro gs h
    obtain ⟨k, v⟩ := kv
    simp only [traverseMapFields] at h
    cases hv : traverseMap it v with
    | error e => rw [hv] at h; simp at h
    | ok w =>
      rw [hv] at h
      cases hfs : traverseMapFields it fs with
      | error e => rw [hfs] at h; simp at h
      | ok gs' =>
        rw [hfs] at h
        cases h
        obtain ⟨hkeys, hrel⟩ := ih gs' hfs
        exact ⟨by simp [hkeys], .cons ⟨rfl, hv⟩ hrel⟩

/-- C9 as amended: an object node is treated as a Mapping Node — replaced by
the result of `_mapValue` — exactly when its `_source || _sources` field (on
the child-rewritten node) is a string or an array; every other node is copied
structurally: scalars pass through unchanged, sequences keep their order and
element correspondence, and objects keep their keys with each value rewritten
in place. -/
theorem C9_amended_mapping_node_dichotomy (tbl : TransformSource) (pre : Option PreFn)
    (src : Json) :
    (∀ v, jsIsObject v = false →
      traverseMap (mapIterator tbl pre src) v = .ok v) ∧
    (∀ xs ys, traverseMapList (mapIterator tbl pre src) xs = .ok ys →
      traverseMap (mapIterator tbl pre src) (.arr xs) = .ok (.arr ys) ∧
      List.Forall₂ (fun x y => traverseMap (mapIterator tbl pre src) x = .ok y) xs ys) ∧
    (∀ fs gs, traverseMapFields (mapIterator tbl pre src) fs = .ok gs →
      (gs.map Prod.fst = fs.map Prod.fst ∧
       List.Forall₂ (fun kv kw => kv.1 = kw.1 ∧
         traverseMap (mapIterator tbl pre src) kv.2 = .ok kw.2) fs gs) ∧
      ((jsIsString (jsOr (jsField (.obj gs) "_source") (jsField (.obj gs) "_sources")) = true ∨
        jsIsArray (jsOr (jsField (.obj gs) "_source") (jsField (.obj gs) "_sources")) = true) →
        traverseMap (mapIterator tbl pre src) (.obj fs) = mapValue tbl pre src (.obj gs)) ∧
      ((jsIsString (jsOr (jsField (.obj gs) "_source") (jsField (.obj gs) "_sources")) = false ∧
        jsIsArray (jsOr (jsField (.obj gs) "_source") (jsField (.obj gs) "_sources")) = false) →
        traverseMap (mapIterator tbl pre src) (.obj fs) = .ok (.obj gs))) := by
  refine ⟨?_, ?_, ?_⟩
  · intro v hv
    cases v <;> simp_all [traverseMap, mapIterator, jsIsObject]
  · intro xs ys h
    refine ⟨?_, traverseMapList_forall2 _ xs ys h⟩
    have h1 := jsField_arr_undef ys "_source" (by decide)
    have h2 := jsField_arr_undef ys "_sources" (by decide)
    simp [traverseMap, h, mapIterator, jsIsObject, h1, h2, jsOr, isTruthy,
      jsIsString, jsIsArray]
  · intro fs gs h
    refine ⟨traverseMapFields_forall2 _ fs gs h, ?_, ?_⟩
    · intro hsv
      simp only [traverseMap, h]
      rcases hsv with hs | ha
      · simp [mapIterator, jsIsObject, hs]
      · simp [mapIterator, jsIsObject, ha]
    · intro ⟨hs, ha⟩
      simp only [traverseMap, h]
      simp [mapIterator, jsIsObject, hs, ha]

/-- Witness for C9 as amended: a node whose `_source` is the string `"k"` is
replaced by the resolved value, exercising the mapping-node branch of the
dichotomy at a concrete input. -/
theorem C9_amended_mapping_node_dichotomy_witness :
    traverseMap (mapIterator [] none (.obj [("k", .num 7)]))
        (.obj [("_source", .str "k")]) = .ok (.num 7) := by
  have hd := ((C9_amended_mapping_node_dichotomy [] none (.obj [("k", .num 7)])).2.2
      [("_source", .str "k")] [("_source", .str "k")] (by decide)).2.1
      (by left; decide)
  rw [hd]
  decide

/-! Infrastructure for C6. `templateWF` characterizes mapping templates that
conform to the data model of spec section 3: source directives are key-path
strings or lists of key-path strings, and condition specifications are Function
Calls (or sequences of them), not bare `null`/absent entries or nested mapping
nodes. Under it, `map` without a preprocessor is total for every source object
and every function table — function-invocation failures never escape. -/

/-- True when the node is not a mapping node: its `_source || _sources` is
neither a string nor an array. -/
def notMappingNode (v : Json) : Bool :=
  !(jsIsString (jsOr (jsField v "_source") (jsField v "_sources")) ||
    jsIsArray (jsOr (jsField v "_source") (jsField v "_sources")))

/-- A legal `_source`/`_sources` field value: absent, a key-path string, or a
list of key-path strings. -/
def srcFieldOK (f : Json) : Bool :=
  isUndefinedJ f || jsIsString f ||
  (match f with
   | .arr es => es.all jsIsString
   | _ => false)

/-- A legal element of a condition sequence: not `null`, not absent, and not
itself a mapping node (whose resolution could leave a bare absent entry). -/
def condElemOK (e : Json) : Bool :=
  (match e with
   | .null => false
   | .undef => false
   | _ => true) && notMappingNode e

/-- A legal `_condition`/`_conditions` field value. -/
def condSpecOK (v : Json) : Bool :=
  match v with
  | .arr es => es.all condElemOK
  | .obj _ => notMappingNode v
  | _ => true

mutual

def templateWF : Json → Bool
  | .arr xs => templateWFList xs
  | .obj fs =>
    templateWFFields fs &&
    (srcFieldOK (jsField (.obj fs) "_source") && srcFieldOK (jsField (.obj fs) "_sources") &&
     condSpecOK (jsField (.obj fs) "_condition") && condSpecOK (jsField (.obj fs) "_conditions"))
  | _ => true

def templateWFList : List Json → Bool
  | [] => true
  | x :: xs => templateWF x && templateWFList xs

def templateWFFields : List (String × Json) → Bool
  | [] => true
  | kv :: fs => templateWF kv.2 && templateWFFields fs

end

/-! The relation `Keep` ties a template node to its bottom-up rewrite: scalars
are unchanged, sequences are rewritten pointwise, non-mapping objects keep
their keys with values rewritten in place, and mapping nodes may be replaced
by anything. -/

mutual

inductive Keep : Json → Json → Prop where
  | scalar (v : Json) : jsIsObject v = false → Keep v v
  | arr {xs ys : List Json} : KeepList xs ys → Keep (.arr xs) (.arr ys)
  | objNonMap {fs gs : List (String × Json)} :
      notMappingNode (.obj fs) = true → KeepFields fs gs → Keep (.obj fs) (.obj gs)
  | objMap {fs : List (String × Json)} (w : Json) :
      notMappingNode (.obj fs) = false → Keep (.obj fs) w

inductive KeepList : List Json → List Json → Prop where
  | nil : KeepList [] []
  | cons {x y : Json} {xs ys : List Json} :
      Keep x y → KeepList xs ys → KeepList (x :: xs) (y :: ys)

inductive KeepFields : List (String × Json) → List (String × Json) → Prop where
  | nil : KeepFields [] []
  | cons {k : String} {v w : Json} {fs gs : List (String × Json)} :
      Keep v w → KeepFields fs gs → KeepFields ((k, v) :: fs) ((k, w) :: gs)

end

theorem Keep.scalar_eq {v y : Json} (hv : jsIsObject v = false) (h : Keep v y) : y = v := by
  cases h with
  | scalar => rfl
  | arr _ => simp [jsIsObject] at hv
  | objNonMap _ _ => simp [jsIsObject] at hv
  | objMap _ _ => simp [jsIsObject] at hv

theorem keepList_strs_eq : ∀ (xs ys : List Json),
    (∀ x ∈ xs, jsIsString x = true) → KeepList xs ys → ys = xs := by
  intro xs
  induction xs with
  | nil =>
    intro ys _ h
    cases h
    rfl
  | cons x xs ih =>
    intro ys hstrs h
    cases h with
    | cons hp hrest =>
      rename_i y ys'
      have hx := hstrs x (by simp)
      have hy : y = x := by
        cases x <;> simp [jsIsString] at hx
        exact hp.scalar_eq (by simp [jsIsObject])
      rw [hy, ih ys' (fun z hz => hstrs z (by simp [hz])) hrest]

theorem Keep.srcField_eq {f f' : Json} (hok : srcFieldOK f = true) (h : Keep f f') :
    f' = f := by
  cases h with
  | scalar => rfl
  | arr h2 =>
    rename_i xs ys
    have hstrs : ∀ x ∈ xs, jsIsString x = true := by
      simp [srcFieldOK, isUndefinedJ, jsIsString, List.all_eq_true] at hok
      exact fun x hx => hok x hx
    rw [keepList_strs_eq xs _ hstrs h2]
  | objNonMap _ _ => simp [srcFieldOK, isUndefinedJ, jsIsString] at hok
  | objMap _ _ => simp [srcFieldOK, isUndefinedJ, jsIsString] at hok

theorem keepFields_lookup : ∀ (fs gs : List (String × Json)), KeepFields fs gs →
    ∀ k : String,
      (List.lookup k fs = none ∧ List.lookup k gs = none) ∨
      (∃ v w, List.lookup k fs = some v ∧ List.lookup k gs = some w ∧ Keep v w) := by
  intro fs
  induction fs with
  | nil =>
    intro gs h k
    cases h
    exact .inl ⟨rfl, rfl⟩
  | cons kv fs ih =>
    intro gs h k
    obtain ⟨k₀, v⟩ := kv
    cases h with
    | cons hkeep hrest =>
      rename_i w gs'
      by_cases hkk : (k == k₀) = true
      · exact .inr ⟨v, w, by simp [List.lookup, hkk], by simp [List.lookup, hkk], hkeep⟩
      · have hkk0 : (k == k₀) = false := by
          cases hc : (k == k₀)
          · rfl
          · exact absurd hc hkk
        simpa [List.lookup, hkk0] using ih gs' hrest k

theorem Keep.field {fs gs : List (String × Json)} (h : KeepFields fs gs) (k : String) :
    Keep (jsField (.obj fs) k) (jsField (.obj gs) k) := by
  rcases keepFields_lookup fs gs h k with ⟨h1, h2⟩ | ⟨v, w, h1, h2, hk⟩
  · simp [jsField, jsIndex, h1, h2]
    exact .scalar _ rfl
  · simpa [jsField, jsIndex, h1, h2] using hk

theorem condResults_total (tbl : TransformSource) (s : Json) :
    ∀ cs : List Json, (∀ e ∈ cs, e ≠ .null ∧ e ≠ .undef) →
      ∃ rs, condResults tbl s cs = .ok rs := by
  intro cs
  induction cs with
  | nil => exact fun _ => ⟨[], rfl⟩
  | cons c cs ih =>
    intro hcs
    obtain ⟨h1, h2⟩ := hcs c (by simp)
    have hkeys : ∃ ks, jsKeysE c = .ok ks := by
      cases c <;> simp_all [jsKeysE]
    obtain ⟨ks, hks⟩ := hkeys
    obtain ⟨rs, hrs⟩ := ih (fun e he => hcs e (by simp [he]))
    refine ⟨(match runFunction tbl c s with
      | .ok v => isTrueJ v
      | .error _ => false) :: rs, ?_⟩
    simp [condResults, hks, hrs]

/-- Condition checking never escapes as long as no element of the (wrapped)
condition list is `null` or absent: every function-invocation failure inside is
converted to `false` by the catch. -/
theorem checkCondition_total (tbl : TransformSource) (s spec : Json)
    (h : ∀ e ∈ jsConcatList spec, e ≠ .null ∧ e ≠ .undef) :
    ∃ b, checkCondition tbl s spec = .ok b := by
  obtain ⟨rs, hrs⟩ := condResults_total tbl s _ h
  exact ⟨rs.all (fun b => b), by simp [checkCondition, hrs]⟩

theorem keepList_mem_right : ∀ {xs ys : List Json}, KeepList xs ys →
    ∀ y ∈ ys, ∃ x ∈ xs, Keep x y := by
  intro xs
  induction xs with
  | nil =>
    intro ys h y hy
    cases h
    simp at hy
  | cons x xs ih =>
    intro ys h y hy
    cases h with
    | cons hp hrest =>
      rename_i y₀ ys'
      rcases List.mem_cons.mp hy with hy | hy
      · subst hy
        exact ⟨x, by simp, hp⟩
      · obtain ⟨x', hx', hk⟩ := ih hrest y hy
        exact ⟨x', by simp [hx'], hk⟩

/-- A legal condition element, rewritten bottom-up, is still neither `null`
nor absent. -/
theorem condElem_keep_safe {e e' : Json} (he : condElemOK e = true) (hk : Keep e e') :
    e' ≠ .null ∧ e' ≠ .undef := by
  cases hk with
  | scalar hv =>
    constructor
    · intro h
      rw [h] at he
      simp [condElemOK] at he
    · intro h
      rw [h] at he
      simp [condElemOK] at he
  | arr _ =>
    exact ⟨(fun h => by cases h), (fun h => by cases h)⟩
  | objNonMap _ _ =>
    exact ⟨(fun h => by cases h), (fun h => by cases h)⟩
  | objMap w hnm =>
    exfalso
    simp [condElemOK, hnm] at he

/-- A legal condition specification, rewritten bottom-up, never leaves a `null`
or absent element in the wrapped condition list (when the rewritten spec is
truthy at all). -/
theorem condSpec_keep_safe {f f' : Json} (hok : condSpecOK f = true) (hk : Keep f f')
    (htr : isTruthy f' = true) :
    ∀ e ∈ jsConcatList f', e ≠ .null ∧ e ≠ .undef := by
  cases hk with
  | scalar hv =>
    intro e he
    cases f <;> simp_all [jsConcatList, isTruthy, jsIsObject]
  | arr h2 =>
    rename_i es es'
    intro e' he'
    simp only [jsConcatList] at he'
    obtain ⟨e, he, hkeep⟩ := keepList_mem_right h2 e' he'
    have helem : condElemOK e = true := by
      simp [condSpecOK, List.all_eq_true] at hok
      exact hok e he
    exact condElem_keep_safe helem hkeep
  | objNonMap hnm _ =>
    intro e he
    simp [jsConcatList] at he
    subst he
    exact ⟨by simp, by simp⟩
  | objMap w hnm =>
    simp [condSpecOK, hnm] at hok

/-- The `||` of two legal condition fields, rewritten, is still safe. -/
theorem condSpec_or_safe {c₁ c₂ c₁' c₂' : Json}
    (h₁ : condSpecOK c₁ = true) (h₂ : condSpecOK c₂ = true)
    (k₁ : Keep c₁ c₁') (k₂ : Keep c₂ c₂')
    (ht : isTruthy (jsOr c₁' c₂') = true) :
    ∀ e ∈ jsConcatList (jsOr c₁' c₂'), e ≠ .null ∧ e ≠ .undef := by
  unfold jsOr at ht ⊢
  by_cases hc : isTruthy c₁' = true
  · simp only [hc, if_true] at ht ⊢
    exact condSpec_keep_safe h₁ k₁ hc
  · have hc' : isTruthy c₁' = false := by
      cases hcc : isTruthy c₁'
      · rfl
      · exact absurd hcc hc
    simp only [hc', Bool.false_eq_true, if_false] at ht ⊢
    exact condSpec_keep_safe h₂ k₂ ht

theorem resolvePathList_ok_of_strs (src : Json) :
    ∀ es : List Json, es.all jsIsString = true →
      ∃ vs, resolvePathList src es = .ok vs := by
  intro es
  induction es with
  | nil => exact fun _ => ⟨[], rfl⟩
  | cons e es ih =>
    intro h
    rw [List.all_cons, Bool.and_eq_true] at h
    obtain ⟨h₁, h₂⟩ := h
    obtain ⟨vs, hvs⟩ := ih h₂
    cases e with
    | str q => exact ⟨resolveKeyPath src q :: vs, by simp [resolvePathList, hvs]⟩
    | undef => simp [jsIsString] at h₁
    | null => simp [jsIsString] at h₁
    | bool b => simp [jsIsString] at h₁
    | num n => simp [jsIsString] at h₁
    | arr a => simp [jsIsString] at h₁
    | obj o => simp [jsIsString] at h₁

theorem srcFieldOK_jsOr {f₁ f₂ : Json} (h₁ : srcFieldOK f₁ = true)
    (h₂ : srcFieldOK f₂ = true) : srcFieldOK (jsOr f₁ f₂) = true := by
  unfold jsOr
  by_cases hc : isTruthy f₁ = true
  · simp [hc, h₁]
  · have hc' : isTruthy f₁ = false := by
      cases hcc : isTruthy f₁
      · rfl
      · exact absurd hcc hc
    simp [hc', h₂]

/-- A legal source directive always resolves without a JS-level error. -/
theorem resolveSource_ok_of_srcFieldOK (src : Json) {f : Json}
    (hok : srcFieldOK f = true)
    (hma : jsIsString f = true ∨ jsIsArray f = true) :
    ∃ r, resolveSource src f = .ok r := by
  cases f with
  | str s => exact ⟨_, rfl⟩
  | arr es =>
    have hstrs : es.all jsIsString = true := by
      simpa [srcFieldOK, isUndefinedJ, jsIsString] using hok
    obtain ⟨vs, hvs⟩ := resolvePathList_ok_of_strs src es hstrs
    refine ⟨if vs.all isUndefinedJ then Json.undef else Json.arr vs, ?_⟩
    simp only [resolveSource, hvs]
  | undef => simp [jsIsString, jsIsArray] at hma
  | null => simp [jsIsString, jsIsArray] at hma
  | bool b => simp [jsIsString, jsIsArray] at hma
  | num n => simp [jsIsString, jsIsArray] at hma
  | obj fs => simp [jsIsString, jsIsArray] at hma

/-- With no preprocessor, a mapping node whose source directive resolves and
whose condition specification is safe evaluates without error, whatever the
function table contains. -/
theorem mapValue_total (tbl : TransformSource) (src vm : Json)
    (hres : ∃ r, resolveSource src
      (jsOr (jsField vm "_source") (jsField vm "_sources")) = .ok r)
    (hcond : isTruthy (jsOr (jsField vm "_condition") (jsField vm "_conditions")) = true →
      ∀ e ∈ jsConcatList (jsOr (jsField vm "_condition") (jsField vm "_conditions")),
        e ≠ .null ∧ e ≠ .undef) :
    ∃ out, mapValue tbl none src vm = .ok out := by
  obtain ⟨r, hr⟩ := hres
  by_cases hct : isTruthy (jsOr (jsField vm "_condition") (jsField vm "_conditions")) = true
  · obtain ⟨b, hb⟩ := checkCondition_total tbl r _ (hcond hct)
    cases b
    · exact ⟨jsField vm "_default", by simp [mapValue, hr, hct, hb]⟩
    · simp only [mapValue, hr, hct, if_true, hb, Bool.not_true, Bool.false_eq_true,
        if_false, preprocessStage]
      exact ⟨_, rfl⟩
  · have hct' : isTruthy (jsOr (jsField vm "_condition") (jsField vm "_conditions")) = false := by
      cases hcc : isTruthy (jsOr (jsField vm "_condition") (jsField vm "_conditions"))
      · rfl
      · exact absurd hcc hct
    simp only [mapValue, hr, hct', Bool.false_eq_true, if_false, Bool.not_true,
      preprocessStage]
    exact ⟨_, rfl⟩

theorem traverseList_wf_total (it : Json → Except String Json) (xs : List Json)
    (h : ∀ x ∈ xs, templateWF x = true → ∃ w, traverseMap it x = .ok w ∧ Keep x w)
    (hwf : templateWFList xs = true) :
    ∃ ys, traverseMapList it xs = .ok ys ∧ KeepList xs ys := by
  induction xs with
  | nil => exact ⟨[], rfl, .nil⟩
  | cons x xs ih =>
    rw [templateWFList, Bool.and_eq_true] at hwf
    obtain ⟨w, hw, hkw⟩ := h x (by simp) hwf.1
    obtain ⟨ys, hys, hkys⟩ := ih (fun z hz => h z (by simp [hz])) hwf.2
    exact ⟨w :: ys, by simp [traverseMapList, hw, hys], .cons hkw hkys⟩

theorem traverseFields_wf_total (it : Json → Except String Json)
    (fs : List (String × Json))
    (h : ∀ kv ∈ fs, templateWF kv.2 = true → ∃ w, traverseMap it kv.2 = .ok w ∧ Keep kv.2 w)
    (hwf : templateWFFields fs = true) :
    ∃ gs, traverseMapFields it fs = .ok gs ∧ KeepFields fs gs := by
  induction fs with
  | nil => exact ⟨[], rfl, .nil⟩
  | cons kv fs ih =>
    rw [templateWFFields, Bool.and_eq_true] at hwf
    obtain ⟨w, hw, hkw⟩ := h kv (by simp) hwf.1
    obtain ⟨gs, hgs, hkgs⟩ := ih (fun z hz => h z (by simp [hz])) hwf.2
    obtain ⟨k, v⟩ := kv
    exact ⟨(k, w) :: gs, by simp [traverseMapFields, hw, hgs], .cons hkw hkgs⟩

/-- Bottom-up rewriting of a data-model-conforming template, with no
preprocessor, never errors — for every source object and every function table —
and relates input and output by `Keep`. -/
theorem traverseMap_wf_total (tbl : TransformSource) (src : Json) :
    ∀ v, templateWF v = true →
      ∃ w, traverseMap (mapIterator tbl none src) v = .ok w ∧ Keep v w := by
  intro v
  induction v using Json.inductionOn with
  | hundef =>
    exact fun _ => ⟨.undef, by simp [traverseMap, mapIterator, jsIsObject], .scalar _ rfl⟩
  | hnull =>
    exact fun _ => ⟨.null, by simp [traverseMap, mapIterator, jsIsObject], .scalar _ rfl⟩
  | hbool b =>
    exact fun _ => ⟨.bool b, by simp [traverseMap, mapIterator, jsIsObject], .scalar _ rfl⟩
  | hnum n =>
    exact fun _ => ⟨.num n, by simp [traverseMap, mapIterator, jsIsObject], .scalar _ rfl⟩
  | hstr s =>
    exact fun _ => ⟨.str s, by simp [traverseMap, mapIterator, jsIsObject], .scalar _ rfl⟩
  | harr xs ih =>
    intro hwf
    obtain ⟨ys, hys, hrel⟩ := traverseList_wf_total _ xs ih (by simpa [templateWF] using hwf)
    refine ⟨.arr ys, ?_, .arr hrel⟩
    have h1 := jsField_arr_undef ys "_source" (by decide)
    have h2 := jsField_arr_undef ys "_sources" (by decide)
    simp [traverseMap, hys, mapIterator, jsIsObject, h1, h2, jsOr, isTruthy,
      jsIsString, jsIsArray]
  | hobj fs ih =>
    intro hwf
    rw [templateWF, Bool.and_eq_true, Bool.and_eq_true, Bool.and_eq_true,
      Bool.and_eq_true] at hwf
    obtain ⟨hwfF, ⟨⟨⟨hsrc1, hsrc2⟩, hcnd1⟩, hcnd2⟩⟩ := hwf
    obtain ⟨gs, hgs, hrel⟩ := traverseFields_wf_total _ fs ih hwfF
    have hsrc_eq : jsField (.obj gs) "_source" = jsField (.obj fs) "_source" :=
      Keep.srcField_eq hsrc1 (Keep.field hrel "_source")
    have hsrcs_eq : jsField (.obj gs) "_sources" = jsField (.obj fs) "_sources" :=
      Keep.srcField_eq hsrc2 (Keep.field hrel "_sources")
    by_cases hmap : (jsIsString (jsOr (jsField (.obj fs) "_source") (jsField (.obj fs) "_sources")) ||
        jsIsArray (jsOr (jsField (.obj fs) "_source") (jsField (.obj fs) "_sources"))) = true
    · -- mapping node: resolution and condition checking are safe, so mapValue succeeds
      have hok := srcFieldOK_jsOr hsrc1 hsrc2
      have hres : ∃ r, resolveSource src
          (jsOr (jsField (.obj gs) "_source") (jsField (.obj gs) "_sources")) = .ok r := by
        rw [hsrc_eq, hsrcs_eq]
        exact resolveSource_ok_of_srcFieldOK src hok (by
          rcases Bool.or_eq_true_iff.mp hmap with h | h
          · exact .inl h
          · exact .inr h)
      have hcond : isTruthy (jsOr (jsField (.obj gs) "_condition")
            (jsField (.obj gs) "_conditions")) = true →
          ∀ e ∈ jsConcatList (jsOr (jsField (.obj gs) "_condition")
            (jsField (.obj gs) "_conditions")), e ≠ .null ∧ e ≠ .undef := by
        intro ht
        exact condSpec_or_safe hcnd1 hcnd2 (Keep.field hrel "_condition")
          (Keep.field hrel "_conditions") ht
      obtain ⟨out, hout⟩ := mapValue_total tbl src (.obj gs) hres hcond
      refine ⟨out, ?_, Keep.objMap out (by simp [notMappingNode, hmap])⟩
      simp only [traverseMap, hgs, mapIterator, jsIsObject, hsrc_eq, hsrcs_eq,
        hmap, Bool.true_and, if_true, hout]
    · have hmap' : (jsIsString (jsOr (jsField (.obj fs) "_source") (jsField (.obj fs) "_sources")) ||
          jsIsArray (jsOr (jsField (.obj fs) "_source") (jsField (.obj fs) "_sources"))) = false := by
        cases hc : (jsIsString (jsOr (jsField (.obj fs) "_source") (jsField (.obj fs) "_sources")) ||
            jsIsArray (jsOr (jsField (.obj fs) "_source") (jsField (.obj fs) "_sources")))
        · rfl
        · exact absurd hc hmap
      refine ⟨.obj gs, ?_, Keep.objNonMap (by simp [notMappingNode, hmap']) hrel⟩
      simp only [traverseMap, hgs, mapIterator, jsIsObject, hsrc_eq, hsrcs_eq,
        hmap', Bool.true_and, Bool.false_eq_true, if_false]

theorem condResults_all_false (tbl : TransformSource) (s : Json) :
    ∀ (cs : List Json), (∀ e ∈ cs, e ≠ .null ∧ e ≠ .undef) →
      ∀ c ∈ cs, (∃ e, runFunction tbl c s = .error e) →
        ∃ rs, condResults tbl s cs = .ok rs ∧ rs.all (fun b => b) = false := by
  intro cs
  induction cs with
  | nil => intro _ c hc; simp at hc
  | cons g gs ih =>
    intro hsafe c hc hfail
    obtain ⟨e, he⟩ := hfail
    have hkeys : ∃ ks, jsKeysE g = .ok ks := by
      obtain ⟨h1, h2⟩ := hsafe g (by simp)
      cases g <;> simp_all [jsKeysE]
    obtain ⟨ks, hks⟩ := hkeys
    rcases List.mem_cons.mp hc with hgc | hgc
    · subst hgc
      obtain ⟨rs₀, hrs₀⟩ :=
        condResults_total tbl s gs (fun z hz => hsafe z (by simp [hz]))
      refine ⟨false :: rs₀, ?_, by simp⟩
      simp [condResults, hks, he, hrs₀]
    · obtain ⟨rs, hrs, hall⟩ := ih (fun z hz => hsafe z (by simp [hz])) c hgc ⟨e, he⟩
      refine ⟨(match runFunction tbl g s with
        | .ok v => isTrueJ v
        | .error _ => false) :: rs, ?_, ?_⟩
      · simp [condResults, hks, hrs]
      · simp [hall]

/-- C6: function-invocation failures (unknown function name, user function
throwing) are caught at the nearest condition/transform boundary and converted
into value-level outcomes — a failing condition call contributes `false`, a
failing transform chain becomes absent — and never escape to the caller of
`map`: condition checking returns a boolean for every function table, and for
every source object and every data-model-conforming template (`templateWF`,
spec section 3) `map` without a preprocessor returns an output tree, whatever
the function table contains (including the empty table, where every invocation
fails). -/
theorem C6_function_failures_never_escape :
    (∀ (tbl : TransformSource) (sources : Json) (calls : List Json),
      (∀ c ∈ calls, c ≠ .null ∧ c ≠ .undef) →
      ∃ b, checkCondition tbl sources (.arr calls) = .ok b) ∧
    (∀ (tbl : TransformSource) (sources : Json) (calls : List Json) (c : Json) (e : String),
      (∀ d ∈ calls, d ≠ .null ∧ d ≠ .undef) → c ∈ calls →
      runFunction tbl c sources = .error e →
      checkCondition tbl sources (.arr calls) = .ok false) ∧
    (∀ (tbl : TransformSource) (v : Json) (front : List Json) (c : Json)
        (back : List Json) (w : Json) (e : String),
      chainSteps tbl v front = .ok w → runFunction tbl c w = .error e →
      transformValue tbl v (.arr (front ++ c :: back)) = .undef) ∧
    (∀ (tbl : TransformSource) (src mapping : Json),
      jsIsObject src = true → jsIsObject mapping = true → templateWF mapping = true →
      ∃ out, mapJson src mapping tbl none = .ok out) := by
  refine ⟨?_, ?_, ?_, ?_⟩
  · intro tbl sources calls h
    exact checkCondition_total tbl sources (.arr calls) (by simpa [jsConcatList] using h)
  · intro tbl sources calls c e hsafe hc hfail
    obtain ⟨rs, hrs, hall⟩ := condResults_all_false tbl sources calls hsafe c hc ⟨e, hfail⟩
    simp [checkCondition, jsConcatList, hrs, hall]
  · intro tbl v front c back w e hs hf
    have := transformChain_append_error tbl front v w c back e hs hf
    simpa [transformValue, jsConcatList] using this
  · intro tbl src mapping hs hm hwf
    obtain ⟨out, hout, _⟩ := traverseMap_wf_total tbl src mapping hwf
    exact ⟨out, by simp [mapJson, hs, hm, hout]⟩

/-- Witness for C6 at concrete inputs: a condition calling an unknown function
is `false` (not an exception), a chain hitting a throwing function is absent,
and `map` against the empty function table — where every invocation fails —
still returns an output tree. -/
theorem C6_function_failures_never_escape_witness :
    checkCondition [] (.str "s") (.arr [.obj [("nosuch", .arr [])]]) = .ok false ∧
    transformValue [("boom", fun _ => .error "boom")] (.num 1)
      (.arr [.obj [("boom", .arr [])]]) = .undef ∧
    (∃ out, mapJson (.obj [("a", .num 1)])
      (.obj [("x", .obj [("_source", .str "a"),
        ("_condition", .obj [("missing", .arr [])]), ("_default", .str "d")])])
      [] none = .ok out) := by
  refine ⟨?_, ?_, ?_⟩
  · exact C6_function_failures_never_escape.2.1 [] (.str "s")
      [.obj [("nosuch", .arr [])]] (.obj [("nosuch", .arr [])])
      "TypeError: this.transformSource[functionName] is not a function"
      (by intro d hd; fin_cases hd; exact ⟨by decide, by decide⟩)
      (by simp) (by decide)
  · exact C6_function_failures_never_escape.2.2.1 [("boom", fun _ => .error "boom")]
      (.num 1) [] (.obj [("boom", .arr [])]) [] (.num 1) "boom" (by decide) (by decide)
  · exact C6_function_failures_never_escape.2.2.2 []
      (.obj [("a", .num 1)])
      (.obj [("x", .obj [("_source", .str "a"),
        ("_condition", .obj [("missing", .arr [])]), ("_default", .str "d")])])
      (by decide) (by decide) (by decide)
